import Mathlib

/-!
Verification of the websocket `Client` from `client.go` (package main).

The Go source defines a `Client` holding a websocket connection, a
`Manager` reference, and an `egress` channel of `Event`s; its behaviour
lives in `readMessages`, `writeMessages` and `pongHandler`, together with
the heartbeat constants `pongWait` and `pingInterval`.

The embedding below is a shallow one: each pump is a pure function from
the sequence of environment observations it makes (read results on the
connection, select outcomes on the egress channel / ticker) to the trace
of externally visible actions it performs (dispatches to the router,
writes to the connection, deregistration, log lines).  The external
collaborators (`Manager.routeEvent`, `Manager.removeClient`, JSON
encode/decode) are abstract parameters or trace entries, since only the
calls the `Client` makes to them are at issue.
-/

/-- Modelled from the spec: the wire envelope `Event` (its defining file
is not under `src/`): a discriminator kind and an opaque payload.  The
claims quantify over abstract decode/encode functions, so nothing below
depends on this particular field layout. -/
structure Event where
  kind : String
  payload : String
deriving DecidableEq, Repr

/-- Externally visible actions performed by the pumps, in program order. -/
inductive Act where
  /-- A call `c.connection.SetReadLimit n`. -/
  | setReadLimit (n : Nat) : Act
  /-- a call to `c.connection.SetReadDeadline` -/
  | setReadDeadline : Act
  /-- A call `c.connection.SetPongHandler c.pongHandler`. -/
  | setPongHandler : Act
  /-- A call `c.manager.routeEvent request c`. -/
  | dispatch (e : Event) : Act
  /-- A call `c.manager.removeClient c` (run by the deferred cleanup). -/
  | removeClient : Act
  /-- a `log.Println` / `log.Printf` call -/
  | logMsg : Act
  /-- A call `c.connection.WriteMessage(websocket.TextMessage, data)`. -/
  | writeText (data : String) : Act
  /-- A call writing a ping frame, `WriteMessage(websocket.PingMessage, ...)`. -/
  | writePing : Act
  /-- A call `c.connection.WriteMessage(websocket.CloseMessage, nil)`. -/
  | writeClose : Act
  /-- A call `ticker.Stop()` (run by the deferred cleanup). -/
  | tickerStop : Act
deriving DecidableEq, Repr

/-- One outcome of `c.connection.ReadMessage()` as observed by the read
pump: either a payload, or an error (`unexpected` records what
`websocket.IsUnexpectedCloseError` returns for it). -/
inductive ReadResult where
  | ok (payload : String) : ReadResult
  | err (unexpected : Bool) : ReadResult
deriving DecidableEq, Repr

/-- Result of running a pump against a finite observation sequence:
the action trace produced, and whether the pump's function returned
(`terminated = false` means it is still blocked waiting for the next
observation, so deferred cleanup has not run). -/
structure PumpRun where
  actions : List Act
  terminated : Bool
deriving DecidableEq, Repr

/-- The `for` loop of `readMessages` (client.go lines 69–98).  Each
iteration reads one frame; a read error logs (only when unexpected) and
breaks; `json.Unmarshal` failure (`decode payload = none`) logs and
breaks; otherwise `manager.routeEvent` is called and a routing error
(`route e = some msg`) is logged without breaking.  Breaking runs the
deferred `manager.removeClient`. -/
def readLoop (decode : String → Option Event) (route : Event → Option String) :
    List ReadResult → PumpRun
  | [] => ⟨[], false⟩
  | ReadResult.err unexpected :: _ =>
      ⟨(if unexpected then [Act.logMsg] else []) ++ [Act.removeClient], true⟩
  | ReadResult.ok payload :: rest =>
      match decode payload with
      | none => ⟨[Act.logMsg, Act.removeClient], true⟩
      | some e =>
          let tail := readLoop decode route rest
          match route e with
          | some _ => ⟨Act.dispatch e :: Act.logMsg :: tail.actions, tail.terminated⟩
          | none => ⟨Act.dispatch e :: tail.actions, tail.terminated⟩

/-- Embeds `Client.readMessages` (client.go lines 47–99): deferred
`removeClient`, `SetReadLimit(512)`, `SetReadDeadline` (an error logs
and returns early), `SetPongHandler`, then the read loop.
`deadlineOk` is whether the initial `SetReadDeadline` succeeds. -/
def readMessages (deadlineOk : Bool) (decode : String → Option Event)
    (route : Event → Option String) (reads : List ReadResult) : PumpRun :=
  if deadlineOk then
    let l := readLoop decode route reads
    ⟨Act.setReadLimit 512 :: Act.setReadDeadline :: Act.setPongHandler ::
      l.actions, l.terminated⟩
  else
    ⟨[Act.setReadLimit 512, Act.setReadDeadline, Act.logMsg,
      Act.removeClient], true⟩

/-- The value of `time.Second` in nanoseconds (Go `time.Duration` is an int64 count
of nanoseconds). -/
def timeSecond : Int := 1000000000

/-- The constant `pongWait = 10 * time.Second` (client.go line 177). -/
def pongWait : Int := 10 * timeSecond

/-- The constant `pingInterval = (pongWait * 9) / 10` (client.go line 181). -/
def pingInterval : Int := (pongWait * 9) / 10

/-- The part of connection state the heartbeat touches: the read
deadline (an absolute time in nanoseconds). -/
structure ConnState where
  readDeadline : Int
deriving DecidableEq, Repr

/-- Embeds `conn.SetReadDeadline t`: on success updates the stored deadline and
returns no error; on failure (`fails = true`, decided by the transport)
leaves state unchanged and returns an error. -/
def SetReadDeadline (c : ConnState) (t : Int) (fails : Bool) :
    ConnState × Option String :=
  if fails then (c, some "set deadline failed") else ({ readDeadline := t }, none)

/-- Embeds `Client.pongHandler` (client.go lines 102–108): logs, then returns
`c.connection.SetReadDeadline(time.Now().Add(pongWait))`.  `now` is
`time.Now()`; `fails` is whether that `SetReadDeadline` call errors. -/
def pongHandler (c : ConnState) (now : Int) (fails : Bool) :
    ConnState × Option String :=
  SetReadDeadline c (now + pongWait) fails

/-- One outcome of the `select` in `writeMessages`: the egress channel
yields a message (`ok = true` in the source), the egress channel is
observed closed (`ok = false`), or the ticker fires.  `writeOk` records
whether the corresponding `WriteMessage` call succeeds. -/
inductive WriteInput where
  | msg (e : Event) (writeOk : Bool) : WriteInput
  | closed (writeOk : Bool) : WriteInput
  | tick (writeOk : Bool) : WriteInput
deriving DecidableEq, Repr

/-- The `for`/`select` loop of `writeMessages` (client.go lines
138–172).  Egress closed: write one close frame (logging on failure)
and return.  Egress message: `json.Marshal` failure (`encode e = none`)
logs and returns; otherwise write a text frame, log on write failure,
then log "sent message" and continue either way.  Ticker: log "ping",
write a ping frame; a ping write failure logs and returns.  Returning
runs the deferred `ticker.Stop()` and `manager.removeClient`. -/
def writeLoop (encode : Event → Option String) : List WriteInput → PumpRun
  | [] => ⟨[], false⟩
  | WriteInput.closed writeOk :: _ =>
      ⟨Act.writeClose :: (if writeOk then [] else [Act.logMsg]) ++
        [Act.tickerStop, Act.removeClient], true⟩
  | WriteInput.msg e writeOk :: rest =>
      match encode e with
      | none => ⟨[Act.logMsg, Act.tickerStop, Act.removeClient], true⟩
      | some data =>
          let tail := writeLoop encode rest
          ⟨Act.writeText data :: (if writeOk then [] else [Act.logMsg]) ++
            Act.logMsg :: tail.actions, tail.terminated⟩
  | WriteInput.tick writeOk :: rest =>
      if writeOk then
        let tail := writeLoop encode rest
        ⟨Act.logMsg :: Act.writePing :: tail.actions, tail.terminated⟩
      else
        ⟨[Act.logMsg, Act.writePing, Act.logMsg, Act.tickerStop,
          Act.removeClient], true⟩

/-- Embeds `Client.writeMessages` (client.go lines 123–173): create the ticker,
defer `ticker.Stop()` and `removeClient`, then run the select loop. -/
def writeMessages (encode : Event → Option String) (inputs : List WriteInput) :
    PumpRun :=
  writeLoop encode inputs

/-- The events dispatched to the router in a trace, in order. -/
def dispatched (actions : List Act) : List Event :=
  actions.filterMap fun a =>
    match a with
    | Act.dispatch e => some e
    | _ => none

/-- The text-frame payloads written to the connection in a trace, in
order. -/
def textWrites (actions : List Act) : List String :=
  actions.filterMap fun a =>
    match a with
    | Act.writeText d => some d
    | _ => none

/-- The trace contributed by one successfully-read, successfully-decoded
frame: a dispatch, then a log line exactly when the router errors. -/
def goodTrace (route : Event → Option String) (events : List Event) : List Act :=
  (events.map fun e =>
    Act.dispatch e :: (if (route e).isSome then [Act.logMsg] else [])).flatten

/-- The events taken off the egress channel by a write-pump input
sequence, in order. -/
def msgEvents : List WriteInput → List Event :=
  List.filterMap fun i =>
    match i with
    | WriteInput.msg e _ => some e
    | _ => none

/-- A concrete encoder for instantiating theorems: fails exactly on
kind "bad", otherwise encodes to the kind. -/
def encodeSample (e : Event) : Option String :=
  if e.kind = "bad" then none else some e.kind

/-- A concrete decoder for instantiating theorems: fails exactly on
payload "bad". -/
def decodeSample (p : String) : Option Event :=
  if p = "bad" then none else some (Event.mk p p)

/-- A concrete router that rejects every event. -/
def routeErrSample (_ : Event) : Option String := some "handler error"

/-- A concrete router that accepts every event. -/
def routeOkSample (_ : Event) : Option String := none

/-! ### Helper lemmas shared by the claim theorems -/

theorem dispatched_append (l₁ l₂ : List Act) :
    dispatched (l₁ ++ l₂) = dispatched l₁ ++ dispatched l₂ := by
  simp [dispatched, List.filterMap_append]

theorem textWrites_append (l₁ l₂ : List Act) :
    textWrites (l₁ ++ l₂) = textWrites l₁ ++ textWrites l₂ := by
  simp [textWrites, List.filterMap_append]

theorem dispatched_cons_dispatch (e : Event) (l : List Act) :
    dispatched (Act.dispatch e :: l) = e :: dispatched l := rfl

theorem dispatched_cons_logMsg (l : List Act) :
    dispatched (Act.logMsg :: l) = dispatched l := rfl

theorem dispatched_nil : dispatched [] = [] := rfl

theorem goodTrace_nil (route : Event → Option String) : goodTrace route [] = [] := rfl

theorem goodTrace_cons (route : Event → Option String) (e : Event) (es : List Event) :
    goodTrace route (e :: es) =
      (Act.dispatch e :: (if (route e).isSome then [Act.logMsg] else [])) ++
        goodTrace route es := by
  simp [goodTrace]

theorem dispatched_goodTrace (route : Event → Option String) (events : List Event) :
    dispatched (goodTrace route events) = events := by
  induction events with
  | nil => rfl
  | cons e es ih =>
      rw [goodTrace_cons, dispatched_append]
      cases h : (route e).isSome <;>
        simp [h, dispatched_cons_dispatch, dispatched_cons_logMsg, dispatched_nil, ih]

theorem count_removeClient_goodTrace (route : Event → Option String)
    (events : List Event) :
    (goodTrace route events).count Act.removeClient = 0 := by
  induction events with
  | nil => rfl
  | cons e es ih =>
      rw [goodTrace_cons, List.count_append]
      cases h : (route e).isSome <;> simp [h, ih]

/-- Processing a prefix of frames that all read and decode successfully
just prepends their dispatch/log trace to whatever the loop does with
the remaining reads. -/
theorem readLoop_good_prefix (decode : String → Option Event)
    (route : Event → Option String) (payloads : List String)
    (events : List Event) (rest : List ReadResult)
    (h : payloads.map decode = events.map some) :
    readLoop decode route (payloads.map ReadResult.ok ++ rest) =
      ⟨goodTrace route events ++ (readLoop decode route rest).actions,
        (readLoop decode route rest).terminated⟩ := by
  induction payloads generalizing events with
  | nil =>
      cases events with
      | nil => simp [goodTrace]
      | cons e es => simp at h
  | cons p ps ih =>
      cases events with
      | nil => simp at h
      | cons e es =>
          simp only [List.map_cons, List.cons.injEq] at h
          obtain ⟨h1, h2⟩ := h
          rw [List.map_cons, List.cons_append]
          simp only [readLoop, h1]
          rw [ih es h2, goodTrace_cons]
          cases hr : route e <;> simp [hr]

/-- C9: the heartbeat constants satisfy pongWait = 10 seconds,
pingInterval = (pongWait * 9) / 10 = 9 seconds in exact integer
arithmetic, and pingInterval < pongWait. -/
theorem heartbeat_constants :
    pongWait = 10 * timeSecond ∧
    pingInterval = (pongWait * 9) / 10 ∧
    pingInterval = 9 * timeSecond ∧
    pingInterval < pongWait := by
  refine ⟨rfl, rfl, ?_, ?_⟩ <;> decide

/-- C10: if the initial SetReadDeadline fails at read-pump startup,
readMessages returns before installing the pong handler and before any
read or dispatch, and the deferred removeClient still runs. -/
theorem deadline_failure_early_exit (decode : String → Option Event)
    (route : Event → Option String) (reads : List ReadResult) :
    readMessages false decode route reads =
      ⟨[Act.setReadLimit 512, Act.setReadDeadline, Act.logMsg,
        Act.removeClient], true⟩ ∧
    (readMessages false decode route reads).actions.count Act.setPongHandler = 0 ∧
    dispatched (readMessages false decode route reads).actions = [] ∧
    (readMessages false decode route reads).actions.count Act.removeClient = 1 ∧
    (readMessages false decode route reads).terminated = true := by
  have h : readMessages false decode route reads =
      ⟨[Act.setReadLimit 512, Act.setReadDeadline, Act.logMsg,
        Act.removeClient], true⟩ := rfl
  refine ⟨h, ?_, ?_, ?_, ?_⟩ <;> rw [h] <;> decide

/-- C3: when the write pump observes the egress channel closed, it
writes exactly one transport-native close control frame and terminates,
regardless of whether that close write succeeds, writing no text or
ping frame afterwards; this holds whatever inputs were still pending. -/
theorem close_on_egress_closed (encode : Event → Option String)
    (writeOk : Bool) (rest : List WriteInput) :
    (writeMessages encode (WriteInput.closed writeOk :: rest)).terminated = true ∧
    (writeMessages encode
        (WriteInput.closed writeOk :: rest)).actions.count Act.writeClose = 1 ∧
    textWrites (writeMessages encode (WriteInput.closed writeOk :: rest)).actions
      = [] ∧
    (writeMessages encode
        (WriteInput.closed writeOk :: rest)).actions.count Act.writePing = 0 ∧
    (writeMessages encode (WriteInput.closed writeOk :: rest)).actions =
      Act.writeClose :: (if writeOk then [] else [Act.logMsg]) ++
        [Act.tickerStop, Act.removeClient] := by
  cases writeOk with
  | false =>
      have h : writeMessages encode (WriteInput.closed false :: rest) =
          ⟨[Act.writeClose, Act.logMsg, Act.tickerStop, Act.removeClient],
            true⟩ := rfl
      refine ⟨?_, ?_, ?_, ?_, ?_⟩ <;> rw [h] <;> decide
  | true =>
      have h : writeMessages encode (WriteInput.closed true :: rest) =
          ⟨[Act.writeClose, Act.tickerStop, Act.removeClient], true⟩ := rfl
      refine ⟨?_, ?_, ?_, ?_, ?_⟩ <;> rw [h] <;> decide

/-- C6: a failed ping write when the heartbeat ticker fires terminates
the write pump; on that exit path the ticker is stopped and the client
deregistered, and indeed every exit path of the write pump ends with
ticker stop followed by removeClient. -/
theorem ping_write_failure_fatal (encode : Event → Option String)
    (rest : List WriteInput) :
    writeMessages encode (WriteInput.tick false :: rest) =
      ⟨[Act.logMsg, Act.writePing, Act.logMsg, Act.tickerStop,
        Act.removeClient], true⟩ ∧
    ∀ inputs : List WriteInput,
      (writeMessages encode inputs).terminated = false ∨
        ∃ pre : List Act, (writeMessages encode inputs).actions =
          pre ++ [Act.tickerStop, Act.removeClient] := by
  refine ⟨rfl, ?_⟩
  intro inputs
  induction inputs with
  | nil => exact Or.inl rfl
  | cons i is ih =>
      cases i with
      | closed w =>
          refine Or.inr ?_
          cases w
          · exact ⟨[Act.writeClose, Act.logMsg], rfl⟩
          · exact ⟨[Act.writeClose], rfl⟩
      | msg e w =>
          cases he : encode e with
          | none =>
              refine Or.inr ⟨[Act.logMsg], ?_⟩
              simp [writeMessages, writeLoop, he]
          | some d =>
              rcases ih with h | ⟨pre, hpre⟩
              · refine Or.inl ?_
                simp [writeMessages, writeLoop, he]
                simpa [writeMessages] using h
              · refine Or.inr
                  ⟨Act.writeText d :: (if w then [] else [Act.logMsg]) ++
                    Act.logMsg :: pre, ?_⟩
                simp only [writeMessages, writeLoop, he] at *
                simp [hpre]
      | tick w =>
          cases w with
          | false => exact Or.inr ⟨[Act.logMsg, Act.writePing, Act.logMsg], rfl⟩
          | true =>
              rcases ih with h | ⟨pre, hpre⟩
              · refine Or.inl ?_
                simp only [writeMessages, writeLoop]
                simpa [writeMessages] using h
              · refine Or.inr ⟨Act.logMsg :: Act.writePing :: pre, ?_⟩
                simp only [writeMessages, writeLoop] at *
                simp [hpre]

/-- C7: in the write pump, when the egress channel yields a message, a
JSON-encode failure terminates the pump, while a failure of the text
write is logged and the loop continues to the remaining inputs. -/
theorem outbound_message_error_handling (encode : Event → Option String)
    (e₁ e₂ : Event) (rest : List WriteInput) (data : String)
    (hfail : encode e₁ = none) (hok : encode e₂ = some data) :
    writeMessages encode (WriteInput.msg e₁ true :: rest) =
      ⟨[Act.logMsg, Act.tickerStop, Act.removeClient], true⟩ ∧
    writeMessages encode (WriteInput.msg e₂ false :: rest) =
      ⟨Act.writeText data :: Act.logMsg :: Act.logMsg ::
        (writeMessages encode rest).actions,
        (writeMessages encode rest).terminated⟩ := by
  constructor <;> simp [writeMessages, writeLoop, hfail, hok]

/-- Witness for C7 at a concrete encoder and events. -/
theorem outbound_message_error_handling_witness :
    (encodeSample (Event.mk "bad" "") = none ∧
      encodeSample (Event.mk "ok" "") = some "ok") ∧
    (writeMessages encodeSample [WriteInput.msg (Event.mk "bad" "") true] =
        ⟨[Act.logMsg, Act.tickerStop, Act.removeClient], true⟩ ∧
      writeMessages encodeSample [WriteInput.msg (Event.mk "ok" "") false] =
        ⟨Act.writeText "ok" :: Act.logMsg :: Act.logMsg ::
          (writeMessages encodeSample []).actions,
          (writeMessages encodeSample []).terminated⟩) :=
  ⟨⟨by decide, by decide⟩,
    outbound_message_error_handling encodeSample (Event.mk "bad" "")
      (Event.mk "ok" "") [] "ok" (by decide) (by decide)⟩

/-- C8: a router dispatch error is logged and the read loop continues;
it never terminates the read pump. -/
theorem route_error_nonfatal (decode : String → Option Event)
    (route : Event → Option String) (p : String) (e : Event) (msg : String)
    (rest : List ReadResult) (hdec : decode p = some e)
    (hroute : route e = some msg) :
    readLoop decode route (ReadResult.ok p :: rest) =
      ⟨Act.dispatch e :: Act.logMsg :: (readLoop decode route rest).actions,
        (readLoop decode route rest).terminated⟩ := by
  simp [readLoop, hdec, hroute]

/-- Witness for C8 at a concrete decoder and router. -/
theorem route_error_nonfatal_witness :
    (decodeSample "x" = some (Event.mk "x" "x") ∧
      routeErrSample (Event.mk "x" "x") = some "handler error") ∧
    readLoop decodeSample routeErrSample [ReadResult.ok "x"] =
      ⟨Act.dispatch (Event.mk "x" "x") :: Act.logMsg ::
        (readLoop decodeSample routeErrSample []).actions,
        (readLoop decodeSample routeErrSample []).terminated⟩ :=
  ⟨⟨by decide, by decide⟩,
    route_error_nonfatal decodeSample routeErrSample "x" (Event.mk "x" "x")
      "handler error" [] (by decide) (by decide)⟩

theorem dispatched_cons_setReadLimit (n : Nat) (l : List Act) :
    dispatched (Act.setReadLimit n :: l) = dispatched l := rfl

theorem dispatched_cons_setReadDeadline (l : List Act) :
    dispatched (Act.setReadDeadline :: l) = dispatched l := rfl

theorem dispatched_cons_setPongHandler (l : List Act) :
    dispatched (Act.setPongHandler :: l) = dispatched l := rfl

theorem dispatched_cons_removeClient (l : List Act) :
    dispatched (Act.removeClient :: l) = dispatched l := rfl

theorem textWrites_cons_writeText (d : String) (l : List Act) :
    textWrites (Act.writeText d :: l) = d :: textWrites l := rfl

theorem textWrites_cons_logMsg (l : List Act) :
    textWrites (Act.logMsg :: l) = textWrites l := rfl

theorem textWrites_cons_writePing (l : List Act) :
    textWrites (Act.writePing :: l) = textWrites l := rfl

theorem textWrites_nil : textWrites [] = [] := rfl

/-- C1: for every sequence of N inbound frames that each read and
decode successfully, the read pump calls the router's dispatch exactly
N times, once per frame, in the order the frames were read. -/
theorem read_pump_dispatch_per_frame (decode : String → Option Event)
    (route : Event → Option String) (payloads : List String)
    (events : List Event) (h : payloads.map decode = events.map some) :
    dispatched (readMessages true decode route
        (payloads.map ReadResult.ok)).actions = events ∧
    (dispatched (readMessages true decode route
        (payloads.map ReadResult.ok)).actions).length = payloads.length := by
  have hrm : readMessages true decode route (payloads.map ReadResult.ok) =
      ⟨Act.setReadLimit 512 :: Act.setReadDeadline :: Act.setPongHandler ::
        (readLoop decode route (payloads.map ReadResult.ok)).actions,
        (readLoop decode route (payloads.map ReadResult.ok)).terminated⟩ := rfl
  have hl : readLoop decode route (payloads.map ReadResult.ok) =
      ⟨goodTrace route events, false⟩ := by
    have hpre := readLoop_good_prefix decode route payloads events [] h
    have h0 : readLoop decode route ([] : List ReadResult) = ⟨[], false⟩ := rfl
    rw [h0] at hpre
    simpa using hpre
  have hdisp : dispatched (readMessages true decode route
      (payloads.map ReadResult.ok)).actions = events := by
    rw [hrm, hl]
    simp only [dispatched_cons_setReadLimit, dispatched_cons_setReadDeadline,
      dispatched_cons_setPongHandler]
    exact dispatched_goodTrace route events
  refine ⟨hdisp, ?_⟩
  rw [hdisp]
  have := congrArg List.length h
  simpa using this.symm

/-- Witness for C1 with two concrete frames. -/
theorem read_pump_dispatch_per_frame_witness :
    (["a", "b"].map decodeSample =
      [Event.mk "a" "a", Event.mk "b" "b"].map some) ∧
    (dispatched (readMessages true decodeSample routeOkSample
        (["a", "b"].map ReadResult.ok)).actions =
      [Event.mk "a" "a", Event.mk "b" "b"] ∧
    (dispatched (readMessages true decodeSample routeOkSample
        (["a", "b"].map ReadResult.ok)).actions).length = ["a", "b"].length) :=
  ⟨by decide, read_pump_dispatch_per_frame decodeSample routeOkSample
      ["a", "b"] [Event.mk "a" "a", Event.mk "b" "b"] (by decide)⟩

/-- C2: a frame whose payload fails to decode terminates the read loop:
no dispatch is made for it or for any later frame, and the deferred
removeClient runs exactly once in the read pump's trace (which is, by
construction, independent of the separately-traced write pump). -/
theorem malformed_frame_terminates (decode : String → Option Event)
    (route : Event → Option String) (payloads : List String)
    (events : List Event) (bad : String) (rest : List ReadResult)
    (hgood : payloads.map decode = events.map some)
    (hbad : decode bad = none) :
    (readMessages true decode route
        (payloads.map ReadResult.ok ++ ReadResult.ok bad :: rest)).terminated
      = true ∧
    (readMessages true decode route
        (payloads.map ReadResult.ok ++ ReadResult.ok bad :: rest)).actions.count
      Act.removeClient = 1 ∧
    dispatched (readMessages true decode route
        (payloads.map ReadResult.ok ++ ReadResult.ok bad :: rest)).actions
      = events := by
  have hbadloop : readLoop decode route (ReadResult.ok bad :: rest) =
      ⟨[Act.logMsg, Act.removeClient], true⟩ := by
    simp [readLoop, hbad]
  have hloop := readLoop_good_prefix decode route payloads events
      (ReadResult.ok bad :: rest) hgood
  rw [hbadloop] at hloop
  have hrm : readMessages true decode route
      (payloads.map ReadResult.ok ++ ReadResult.ok bad :: rest) =
      ⟨Act.setReadLimit 512 :: Act.setReadDeadline :: Act.setPongHandler ::
        (readLoop decode route
          (payloads.map ReadResult.ok ++ ReadResult.ok bad :: rest)).actions,
        (readLoop decode route
          (payloads.map ReadResult.ok ++ ReadResult.ok bad :: rest)).terminated⟩
    := rfl
  rw [hrm, hloop]
  refine ⟨rfl, ?_, ?_⟩
  · simp [List.count_cons, List.count_append, count_removeClient_goodTrace]
  · simp only [dispatched_cons_setReadLimit, dispatched_cons_setReadDeadline,
      dispatched_cons_setPongHandler, dispatched_append, dispatched_goodTrace,
      dispatched_cons_logMsg, dispatched_cons_removeClient, dispatched_nil,
      List.append_nil]

/-- Witness for C2: one good frame followed by a malformed one. -/
theorem malformed_frame_terminates_witness :
    (["a"].map decodeSample = [Event.mk "a" "a"].map some ∧
      decodeSample "bad" = none) ∧
    ((readMessages true decodeSample routeOkSample
        (["a"].map ReadResult.ok ++ ReadResult.ok "bad" :: [])).terminated
      = true ∧
    (readMessages true decodeSample routeOkSample
        (["a"].map ReadResult.ok ++ ReadResult.ok "bad" :: [])).actions.count
      Act.removeClient = 1 ∧
    dispatched (readMessages true decodeSample routeOkSample
        (["a"].map ReadResult.ok ++ ReadResult.ok "bad" :: [])).actions
      = [Event.mk "a" "a"]) :=
  ⟨⟨by decide, by decide⟩,
    malformed_frame_terminates decodeSample routeOkSample ["a"]
      [Event.mk "a" "a"] "bad" [] (by decide) (by decide)⟩

/-- C4: for a write-pump input sequence with no closure, in which every
egress message encodes successfully and every ping write succeeds, the
pump performs exactly one text-frame write per enqueued message,
strictly in enqueue order (none dropped, none duplicated); ping frames
interleave between but never within these writes, since each select arm
runs to completion before the next is chosen. -/
theorem write_pump_order (encode : Event → Option String)
    (sched : List WriteInput) (datas : List String)
    (hnc : ∀ w : Bool, WriteInput.closed w ∉ sched)
    (hnt : WriteInput.tick false ∉ sched)
    (henc : (msgEvents sched).map encode = datas.map some) :
    textWrites (writeMessages encode sched).actions = datas := by
  induction sched generalizing datas with
  | nil =>
      cases datas with
      | nil => rfl
      | cons d ds => simp [msgEvents] at henc
  | cons i is ih =>
      cases i with
      | closed w => exact absurd (List.mem_cons_self _ _) (hnc w)
      | tick w =>
          cases w with
          | false => exact absurd (List.mem_cons_self _ _) hnt
          | true =>
              have h1 : ∀ w : Bool, WriteInput.closed w ∉ is :=
                fun w hw => hnc w (List.mem_cons_of_mem _ hw)
              have h2 : WriteInput.tick false ∉ is :=
                fun hw => hnt (List.mem_cons_of_mem _ hw)
              have h3 : (msgEvents is).map encode = datas.map some := by
                simpa [msgEvents] using henc
              have htail := ih datas h1 h2 h3
              have htr : writeMessages encode (WriteInput.tick true :: is) =
                  ⟨Act.logMsg :: Act.writePing ::
                    (writeLoop encode is).actions,
                    (writeLoop encode is).terminated⟩ := rfl
              rw [htr]
              simpa [textWrites_cons_logMsg, textWrites_cons_writePing,
                writeMessages] using htail
      | msg e w =>
          have hm : msgEvents (WriteInput.msg e w :: is) = e :: msgEvents is := by
            simp [msgEvents]
          rw [hm] at henc
          cases datas with
          | nil => simp at henc
          | cons d ds =>
              simp only [List.map_cons, List.cons.injEq] at henc
              obtain ⟨hd, hds⟩ := henc
              have h1 : ∀ w : Bool, WriteInput.closed w ∉ is :=
                fun w hw => hnc w (List.mem_cons_of_mem _ hw)
              have h2 : WriteInput.tick false ∉ is :=
                fun hw => hnt (List.mem_cons_of_mem _ hw)
              have htail := ih ds h1 h2 hds
              have htr : writeMessages encode (WriteInput.msg e w :: is) =
                  ⟨Act.writeText d :: (if w then [] else [Act.logMsg]) ++
                    Act.logMsg :: (writeLoop encode is).actions,
                    (writeLoop encode is).terminated⟩ := by
                simp [writeMessages, writeLoop, hd]
              rw [htr]
              cases w <;>
                simpa [textWrites_cons_writeText, textWrites_cons_logMsg,
                  writeMessages] using htail

/-- Witness for C4: two messages with a ping between them, the second
message's transport write failing. -/
theorem write_pump_order_witness :
    ((∀ w : Bool, WriteInput.closed w ∉
        [WriteInput.msg (Event.mk "a" "") true, WriteInput.tick true,
          WriteInput.msg (Event.mk "b" "") false]) ∧
      WriteInput.tick false ∉
        [WriteInput.msg (Event.mk "a" "") true, WriteInput.tick true,
          WriteInput.msg (Event.mk "b" "") false] ∧
      (msgEvents [WriteInput.msg (Event.mk "a" "") true, WriteInput.tick true,
          WriteInput.msg (Event.mk "b" "") false]).map encodeSample =
        ["a", "b"].map some) ∧
    textWrites (writeMessages encodeSample
        [WriteInput.msg (Event.mk "a" "") true, WriteInput.tick true,
          WriteInput.msg (Event.mk "b" "") false]).actions = ["a", "b"] :=
  ⟨⟨by decide, by decide, by decide⟩,
    write_pump_order encodeSample
      [WriteInput.msg (Event.mk "a" "") true, WriteInput.tick true,
        WriteInput.msg (Event.mk "b" "") false]
      ["a", "b"] (by decide) (by decide) (by decide)⟩

/-- The read loop never performs a SetReadDeadline call itself: only
the pong handler (invoked by the transport) and the initial setup do. -/
theorem readLoop_no_setReadDeadline (decode : String → Option Event)
    (route : Event → Option String) (reads : List ReadResult) :
    Act.setReadDeadline ∉ (readLoop decode route reads).actions := by
  induction reads with
  | nil => simp [readLoop]
  | cons r rs ih =>
      cases r with
      | err u => cases u <;> simp [readLoop]
      | ok p =>
          cases hd : decode p with
          | none => simp [readLoop, hd]
          | some e => cases hr : route e <;> simp [readLoop, hd, hr, ih]

/-- The write pump never performs a SetReadDeadline call. -/
theorem writeLoop_no_setReadDeadline (encode : Event → Option String)
    (inputs : List WriteInput) :
    Act.setReadDeadline ∉ (writeLoop encode inputs).actions := by
  induction inputs with
  | nil => simp [writeLoop]
  | cons i is ih =>
      cases i with
      | closed w => cases w <;> simp [writeLoop]
      | msg e w =>
          cases hd : encode e with
          | none => simp [writeLoop, hd]
          | some d => cases w <;> simp [writeLoop, hd, ih]
      | tick w => cases w <;> simp [writeLoop, ih]

/-- C5: the pong handler sets the read deadline to now + pongWait and
returns to its caller exactly the error of that deadline-set operation;
apart from this handler and the single setup call before the first
read, no operation of the Client extends the read deadline: the read
loop and the write pump contain no deadline update, and the whole read
pump performs exactly one SetReadDeadline call (the setup), whether or
not that call succeeds. -/
theorem pong_handler_sole_deadline_extension :
    (∀ (c : ConnState) (now : Int) (fails : Bool),
      (pongHandler c now fails).1.readDeadline =
        (if fails then c.readDeadline else now + pongWait) ∧
      (pongHandler c now fails).2 =
        (SetReadDeadline c (now + pongWait) fails).2) ∧
    (∀ (decode : String → Option Event) (route : Event → Option String)
        (reads : List ReadResult),
      (readLoop decode route reads).actions.count Act.setReadDeadline = 0) ∧
    (∀ (encode : Event → Option String) (inputs : List WriteInput),
      (writeLoop encode inputs).actions.count Act.setReadDeadline = 0) ∧
    (∀ (deadlineOk : Bool) (decode : String → Option Event)
        (route : Event → Option String) (reads : List ReadResult),
      (readMessages deadlineOk decode route reads).actions.count
        Act.setReadDeadline = 1) := by
  refine ⟨?_, ?_, ?_, ?_⟩
  · intro c now fails
    cases fails <;> simp [pongHandler, SetReadDeadline]
  · intro decode route reads
    exact List.count_eq_zero.mpr (readLoop_no_setReadDeadline decode route reads)
  · intro encode inputs
    exact List.count_eq_zero.mpr (writeLoop_no_setReadDeadline encode inputs)
  · intro deadlineOk decode route reads
    cases deadlineOk with
    | false =>
        have h : readMessages false decode route reads =
            ⟨[Act.setReadLimit 512, Act.setReadDeadline, Act.logMsg,
              Act.removeClient], true⟩ := rfl
        rw [h]
        decide
    | true =>
        have h : readMessages true decode route reads =
            ⟨Act.setReadLimit 512 :: Act.setReadDeadline ::
              Act.setPongHandler ::
              (readLoop decode route reads).actions,
              (readLoop decode route reads).terminated⟩ := rfl
        rw [h]
        have h0 : (readLoop decode route reads).actions.count
            Act.setReadDeadline = 0 :=
          List.count_eq_zero.mpr (readLoop_no_setReadDeadline decode route reads)
        simp [List.count_cons, h0]
